import Mathlib

/-!
Shallow embedding of `m3u8_downloader/main.py` (fllppi/m3u8-downloader).

Modelling conventions:
* File contents are byte lists (`List Nat`).
* The MD5 digest `calculate_file_md5` is modelled by an abstract parameter
  `hash : List Nat → Nat`: the only property the program relies on is that it
  is a deterministic function of the file content.
* An HTTP exchange is `Option HttpResponse`: `none` models a connection error
  or timeout raised by `requests.get`; a response with `ok = false` models a
  non-success status, for which `raise_for_status` raises.  Both raises are
  `requests.RequestException`s caught by the `except` clause.
* The response `body` is the full entity returned for the plain GET (the code
  sends no Range header), and `contentLength` is the optional
  `content-length` header.
* The per-run JSON ledger `segment_info.json` (a dict keyed by `str(i)`) is
  modelled as an association list `List (Nat × Entry)` keyed by the numeric
  index, with dict assignment as in-place update-or-append.
-/

namespace M3u8

/-- A ledger entry of `segment_info.json`: the dict
`\x7b'url': ..., 'md5': ...\x7d` stored per segment index. -/
structure Entry where
  url : String
  md5 : Nat
deriving DecidableEq, Repr

/-- A successfully transported HTTP response, as seen by `download_segment`:
`ok` is whether `raise_for_status` passes, `contentLength` the optional
`content-length` header, `body` the bytes that `iter_content` yields (the
full resource, since the GET carries no Range header). -/
structure HttpResponse where
  ok : Bool
  contentLength : Option Nat
  body : List Nat
deriving DecidableEq, Repr

/-- Embedding of `download_segment` (main.py lines 53-109).  Input: the HTTP
exchange for `url` and the current content of `output_filename` (`none` when
the file does not exist).  Output: the final content of `output_filename`
and the return value (`some` digest on success, `none` on caught failure).

The source: on request failure the file is removed if present and `None` is
returned; otherwise `total_size` defaults to `0` when there is no
`content-length`; an existing file is opened in append mode with
`initial_pos` its size, and if `initial_pos >= total_size` the function
returns the digest of the existing file without writing; otherwise the whole
response body is streamed after the current content (append mode, write mode
when the file did not exist). -/
def download_segment (hash : List Nat → Nat) :
    Option HttpResponse → Option (List Nat) → Option (List Nat) × Option Nat
  | none, _ => (none, none)
  | some resp, file =>
    if resp.ok then
      let total_size := resp.contentLength.getD 0
      match file with
      | some content =>
        if content.length ≥ total_size then
          (some content, some (hash content))
        else
          (some (content ++ resp.body), some (hash (content ++ resp.body)))
      | none => (some resp.body, some (hash resp.body))
    else (none, none)

/-- Python `s.startswith(p)`, computed on the character list so that it
evaluates by kernel reduction. -/
def startswith (s p : String) : Bool :=
  p.data.isPrefixOf s.data

/-- Python `s.endswith(p)`, computed on the character list. -/
def endswith (s p : String) : Bool :=
  p.data.isSuffixOf s.data

/-- Python `s.strip()`: remove leading and trailing whitespace. -/
def strip (s : String) : String :=
  ⟨((s.data.dropWhile Char.isWhitespace).reverse.dropWhile
      Char.isWhitespace).reverse⟩

/-- Embedding of the two-argument posix `os.path.join` used at main.py
line 33: an absolute second component replaces the first; an empty or
slash-terminated first component is concatenated directly; otherwise a slash
separator is inserted. -/
def ospath_join (a b : String) : String :=
  if startswith b "/" then b
  else if a = "" then b
  else if endswith a "/" then a ++ b
  else a ++ "/" ++ b

/-- Embedding of the per-line resolution of `extract_segments` (main.py
lines 32-33): a line starting with the literal `"http"` is kept verbatim,
any other line is joined to the manifest's directory. -/
def resolve_line (base line : String) : String :=
  if startswith line "http" then line else ospath_join base line

/-- Embedding of `extract_segments` (main.py lines 16-35).  The manifest is
given as its list of lines (the file iteration) and its directory `base`
(`os.path.dirname(m3u8_filename)`).  Each line is stripped; stripped lines
that are empty or start with `#` are skipped; the rest are resolved and
appended in order. -/
def extract_segments (base : String) (lines : List String) : List String :=
  lines.filterMap fun raw =>
    let line := strip raw
    if line ≠ "" ∧ ¬ startswith line "#" then some (resolve_line base line)
    else none

/-- Modelled from the spec: a reference "already expressed as an absolute
URL" is one written with an explicit http or https scheme. -/
def isAbsoluteUrl (s : String) : Bool :=
  startswith s "http://" || startswith s "https://"

/-- Modelled from the spec: the resolution rule as the spec states it --
an absolute URL is used verbatim, anything else is directory-joined. -/
def spec_resolve (base line : String) : String :=
  if isAbsoluteUrl line then line else ospath_join base line

/-- Is a raw manifest line emitted (neither blank after stripping nor a
comment line starting with the `#` marker)? -/
def keptLine (raw : String) : Bool :=
  !(strip raw == "") && !(startswith (strip raw) "#")

/-- The stripped emitted lines of a manifest, in order. -/
def keptLines (lines : List String) : List String :=
  (lines.filter keptLine).map strip

/-- A concrete digest function used to evaluate the model on closed
inputs. -/
def exampleHash (l : List Nat) : Nat :=
  l.foldl (fun a b => 2 * a + b + 1) 1

/-- C5: for every fetch that fails at the network layer (connection error,
timeout, or non-success HTTP status), `download_segment` removes any file
present for that attempt, returns the failure value `none` for that segment
only, and the exception is caught rather than propagated (the embedding is a
total function whose failure branch is exactly the `except` clause). -/
theorem C5_network_failure_isolated (hash : List Nat → Nat)
    (r : Option HttpResponse) (file : Option (List Nat))
    (hfail : r = none ∨ ∃ resp, r = some resp ∧ resp.ok = false) :
    download_segment hash r file = (none, none) := by
  rcases hfail with h | ⟨resp, hr, hok⟩
  · subst h; rfl
  · subst hr; simp [download_segment, hok]

theorem C5_network_failure_isolated_witness :
    download_segment exampleHash none (some [1, 2]) = (none, none) :=
  C5_network_failure_isolated exampleHash none (some [1, 2]) (Or.inl rfl)

/-- C1: the source intends to resume an interrupted partial file (append
mode, `initial_pos`), but sends no Range header, so the full body is
appended after the existing bytes: at a 1-byte partial file `[10]` of the
2-byte resource `[10, 20]` (content-length 2), the final file is
`[10, 10, 20]`, not the resource content `[10, 20]`. -/
theorem C1_append_without_range_corrupts :
    (download_segment exampleHash
        (some ⟨true, some 2, [10, 20]⟩) (some [10])).1 = some [10, 10, 20]
    ∧ some ([10, 10, 20] : List Nat) ≠ some [10, 20] := by
  exact ⟨rfl, by decide⟩

/-- C2 counterexample: with no `content-length` (`total_size` defaults to 0)
and an existing local file `[5]`, `download_segment` does not re-fetch and
overwrite: the final file is the untouched `[5]`, not the response body
`[1, 2]`. -/
theorem C2_counterexample :
    (download_segment exampleHash
        (some ⟨true, none, [1, 2]⟩) (some [5])).1 ≠ some [1, 2] := by
  decide

/-- C2 (amended): when the server reports no total size, any existing local
file satisfies `initial_pos >= 0`, so `download_segment` treats it as
already complete and returns its digest without writing; only when no local
file exists does it fetch from scratch. -/
theorem C2_no_length_trusts_existing_file (hash : List Nat → Nat)
    (resp : HttpResponse) (file : Option (List Nat))
    (hok : resp.ok = true) (hcl : resp.contentLength = none) :
    download_segment hash (some resp) file =
      match file with
      | some c => (some c, some (hash c))
      | none => (some resp.body, some (hash resp.body)) := by
  cases file <;> simp [download_segment, hok, hcl]

theorem C2_no_length_trusts_existing_file_witness :
    download_segment exampleHash (some ⟨true, none, [1, 2]⟩) (some [5]) =
      (some [5], some (exampleHash [5])) :=
  C2_no_length_trusts_existing_file exampleHash ⟨true, none, [1, 2]⟩
    (some [5]) rfl rfl

theorem keptLine_iff (raw : String) :
    keptLine raw = true ↔ (strip raw ≠ "" ∧ ¬ startswith (strip raw) "#") := by
  simp [keptLine]

theorem extract_segments_eq (base : String) (lines : List String) :
    extract_segments base lines = (keptLines lines).map (resolve_line base) := by
  induction lines with
  | nil => rfl
  | cons raw rest ih =>
    by_cases h : strip raw ≠ "" ∧ ¬ startswith (strip raw) "#"
    · have hk : keptLine raw = true := (keptLine_iff raw).mpr h
      simp only [extract_segments, List.filterMap_cons, keptLines,
        List.filter_cons, hk, if_pos h, if_true, List.map_cons]
      exact congrArg _ ih
    · have hk : keptLine raw = false := by
        cases hval : keptLine raw
        · rfl
        · exact absurd ((keptLine_iff raw).mp hval) h
      simp only [extract_segments, List.filterMap_cons, keptLines,
        List.filter_cons, hk, if_neg h, Bool.false_eq_true, if_false]
      exact ih

/-- C9: the number of locators produced by `extract_segments` equals the
number of manifest lines that are neither blank nor comment lines, and the
locator list is exactly the emitted (stripped, non-skipped) lines resolved
in order, so each locator's index is its 0-based position among the emitted
lines. -/
theorem C9_locator_count_and_order (base : String) (lines : List String) :
    extract_segments base lines = (keptLines lines).map (resolve_line base)
    ∧ (extract_segments base lines).length = lines.countP keptLine := by
  refine ⟨extract_segments_eq base lines, ?_⟩
  rw [extract_segments_eq]
  simp [keptLines, List.countP_eq_length_filter]

/-- C8 counterexample: the manifest line `httpx` is not an absolute URL, so
per the claim it should be joined to the base directory, but the parser's
verbatim test is the literal prefix `http`, so the line is kept verbatim. -/
theorem C8_counterexample :
    extract_segments "base" ["httpx"] = ["httpx"]
    ∧ isAbsoluteUrl "httpx" = false
    ∧ ospath_join "base" "httpx" = "base/httpx"
    ∧ ("httpx" : String) ≠ "base/httpx" := by
  refine ⟨by decide, by decide, by decide, by decide⟩

/-- C8 (amended): for every non-skipped manifest line, the parser uses the
line verbatim exactly when it begins with the literal `http` (which covers
every absolute http/https URL, but also non-absolute lines with that
prefix); any other line is resolved against the manifest's base location by
directory-join semantics. -/
theorem C8_resolution_rule (base : String) (lines : List String) :
    extract_segments base lines =
      (keptLines lines).map fun l =>
        if startswith l "http" then l else ospath_join base l :=
  extract_segments_eq base lines

/-- Five-digit zero padding, as in the format `segment_\x7bi:05d\x7d.ts`. -/
def pad5 (n : Nat) : String :=
  let s := toString n
  String.mk (List.replicate (5 - s.length) '0') ++ s

/-- The per-index segment file name `segment_\x7bi:05d\x7d.ts` used at
main.py lines 142 and 156 (the `output_dir` component is common to all
segments and is dropped from the model). -/
def segmentFilename (i : Nat) : String :=
  "segment_" ++ pad5 i ++ ".ts"

/-- Embedding of the skip test at main.py lines 143-144: a ledger entry
exists for `i`, the segment file exists on disk, and the entry's stored
digest equals the digest recomputed from the file's current content.  The
file system is modelled as `fs : Nat → Option (List Nat)`, the content of
segment file `i` (or `none` when absent). -/
def isSkipped (hash : List Nat → Nat) (info : List (Nat × Entry))
    (fs : Nat → Option (List Nat)) (i : Nat) : Bool :=
  match info.lookup i, fs i with
  | some e, some c => e.md5 == hash c
  | _, _ => false

/-- The indices the enumerate loop (main.py lines 141-149) marks as already
done and does not dispatch. -/
def skippedIdx (hash : List Nat → Nat) (info : List (Nat × Entry))
    (fs : Nat → Option (List Nat)) (n : Nat) : List Nat :=
  (List.range n).filter (isSkipped hash info fs)

/-- The indices the enumerate loop submits to the worker pool. -/
def submittedIdx (hash : List Nat → Nat) (info : List (Nat × Entry))
    (fs : Nat → Option (List Nat)) (n : Nat) : List Nat :=
  (List.range n).filter fun i => !(isSkipped hash info fs i)

/-- Python dict assignment `d[k] = e` on the association-list model of
`segment_info`: replace the entry in place when the key is present,
otherwise append. -/
def insertEntry : List (Nat × Entry) → Nat → Entry → List (Nat × Entry)
  | [], k, e => [(k, e)]
  | p :: rest, k, e =>
    if p.1 = k then (k, e) :: rest else p :: insertEntry rest k e

/-- Embedding of one iteration of the `as_completed` loop (main.py lines
151-164) for the future of index `j`: if the worker returned a digest, the
pair `(j, filename)` is appended to `downloaded_segments` and the ledger
entry for `j` is set to the segment's URL and digest; a `None` result
changes nothing. -/
def completionStep (hash : List Nat → Nat) (segments : List String)
    (fs : Nat → Option (List Nat)) (resp : Nat → Option HttpResponse)
    (st : List (Nat × String) × List (Nat × Entry)) (j : Nat) :
    List (Nat × String) × List (Nat × Entry) :=
  match (download_segment hash (resp j) (fs j)).2 with
  | some m =>
    (st.1 ++ [(j, segmentFilename j)],
     insertEntry st.2 j ⟨segments.getD j "", m⟩)
  | none => st

/-- The submitted indices whose download attempt returns a digest (the
successful futures). -/
def succIdx (hash : List Nat → Nat) (fs : Nat → Option (List Nat))
    (resp : Nat → Option HttpResponse) (order : List Nat) : List Nat :=
  order.filter fun j => ((download_segment hash (resp j) (fs j)).2).isSome

/-- Embedding of `download_segments_in_parallel` (main.py lines 111-170).
Inputs: the digest function, the locator list, the per-index file system
and HTTP exchanges, the ledger `info0` loaded from `segment_info.json`, and
`order`, the order in which `as_completed` yields the submitted futures
(completion order is scheduling-dependent; any permutation of the submitted
indices is possible).  Output: the sorted `downloaded_segments` list that
is returned, and the ledger that is persisted at batch end. -/
def download_segments_in_parallel (hash : List Nat → Nat)
    (segments : List String) (fs : Nat → Option (List Nat))
    (resp : Nat → Option HttpResponse) (info0 : List (Nat × Entry))
    (order : List Nat) : List (Nat × String) × List (Nat × Entry) :=
  let n := segments.length
  let preSkipped :=
    (skippedIdx hash info0 fs n).map fun i => (i, segmentFilename i)
  let st := order.foldl (completionStep hash segments fs resp) ([], info0)
  ((preSkipped ++ st.1).mergeSort (fun a b => decide (a.1 ≤ b.1)), st.2)

/-- Embedding of the ledger load (main.py lines 129-134).  The argument is
the content of `segment_info.json` when the file exists, `none` when it
does not; `parse` models `json.load`, with `none` a
`json.JSONDecodeError`.  A missing file yields the empty ledger; a decode
error is raised and is not caught anywhere in
`download_segments_in_parallel`, so it escapes (`Except.error`). -/
def loadSegmentInfo (parse : String → Option (List (Nat × Entry))) :
    Option String → Except String (List (Nat × Entry))
  | none => Except.ok []
  | some doc =>
    match parse doc with
    | some info => Except.ok info
    | none => Except.error "json.JSONDecodeError"

theorem lookup_cons_pair (a : Nat) (p : Nat × Entry)
    (es : List (Nat × Entry)) :
    (p :: es).lookup a = if a = p.1 then some p.2 else es.lookup a := by
  rw [show (p : Nat × Entry) = (p.1, p.2) from rfl, List.lookup_cons]
  by_cases h : a = p.1
  · subst h; simp
  · simp [beq_eq_false_iff_ne.mpr h, h]

theorem lookup_insertEntry_self (l : List (Nat × Entry)) (k : Nat)
    (e : Entry) : (insertEntry l k e).lookup k = some e := by
  induction l with
  | nil => simp [insertEntry, lookup_cons_pair]
  | cons p rest ih =>
    by_cases h : p.1 = k
    · simp [insertEntry, h, lookup_cons_pair]
    · simp [insertEntry, h, lookup_cons_pair, Ne.symm h, ih]

theorem lookup_insertEntry_ne (l : List (Nat × Entry)) (k k' : Nat)
    (e : Entry) (h : k' ≠ k) :
    (insertEntry l k e).lookup k' = l.lookup k' := by
  induction l with
  | nil => simp [insertEntry, lookup_cons_pair, h]
  | cons p rest ih =>
    by_cases hp : p.1 = k
    · subst hp
      simp [insertEntry, lookup_cons_pair, h]
    · simp [insertEntry, hp, lookup_cons_pair, ih]

theorem succIdx_cons_none (hash : List Nat → Nat)
    (fs : Nat → Option (List Nat)) (resp : Nat → Option HttpResponse)
    (j : Nat) (rest : List Nat)
    (hres : (download_segment hash (resp j) (fs j)).2 = none) :
    succIdx hash fs resp (j :: rest) = succIdx hash fs resp rest := by
  simp [succIdx, List.filter_cons, hres]

theorem succIdx_cons_some (hash : List Nat → Nat)
    (fs : Nat → Option (List Nat)) (resp : Nat → Option HttpResponse)
    (j : Nat) (rest : List Nat) (m : Nat)
    (hres : (download_segment hash (resp j) (fs j)).2 = some m) :
    succIdx hash fs resp (j :: rest) = j :: succIdx hash fs resp rest := by
  simp [succIdx, List.filter_cons, hres]

theorem isSome_lookup_insertEntry (l : List (Nat × Entry)) (k k' : Nat)
    (e : Entry) :
    ((insertEntry l k e).lookup k').isSome
      ↔ (l.lookup k').isSome ∨ k' = k := by
  by_cases h : k' = k
  · subst h; simp [lookup_insertEntry_self]
  · simp [lookup_insertEntry_ne l k k' e h, h]

theorem foldl_completionStep_fst (hash : List Nat → Nat)
    (segments : List String) (fs : Nat → Option (List Nat))
    (resp : Nat → Option HttpResponse) (order : List Nat) :
    ∀ (acc : List (Nat × String)) (info : List (Nat × Entry)),
    (order.foldl (completionStep hash segments fs resp) (acc, info)).1
      = acc ++ (succIdx hash fs resp order).map
          fun j => (j, segmentFilename j) := by
  induction order with
  | nil => intro acc info; simp [succIdx]
  | cons j rest ih =>
    intro acc info
    rw [List.foldl_cons]
    cases hres : (download_segment hash (resp j) (fs j)).2 with
    | none =>
      have hstep : completionStep hash segments fs resp (acc, info) j
          = (acc, info) := by
        simp [completionStep, hres]
      rw [hstep, ih, succIdx_cons_none hash fs resp j rest hres]
    | some m =>
      have hstep : completionStep hash segments fs resp (acc, info) j
          = (acc ++ [(j, segmentFilename j)],
             insertEntry info j ⟨segments.getD j "", m⟩) := by
        simp [completionStep, hres]
      rw [hstep, ih, succIdx_cons_some hash fs resp j rest m hres]
      simp

theorem foldl_completionStep_lookup (hash : List Nat → Nat)
    (segments : List String) (fs : Nat → Option (List Nat))
    (resp : Nat → Option HttpResponse) (order : List Nat) :
    ∀ (acc : List (Nat × String)) (info : List (Nat × Entry)) (k : Nat),
    k ∉ succIdx hash fs resp order →
    ((order.foldl (completionStep hash segments fs resp) (acc, info)).2).lookup k
      = info.lookup k := by
  induction order with
  | nil => intro acc info k _; rfl
  | cons j rest ih =>
    intro acc info k hk
    rw [List.foldl_cons]
    cases hres : (download_segment hash (resp j) (fs j)).2 with
    | none =>
      have hstep : completionStep hash segments fs resp (acc, info) j
          = (acc, info) := by
        simp [completionStep, hres]
      rw [hstep]
      rw [succIdx_cons_none hash fs resp j rest hres] at hk
      exact ih acc info k hk
    | some m =>
      rw [succIdx_cons_some hash fs resp j rest m hres] at hk
      have hkj : k ≠ j := fun h => hk (h ▸ List.mem_cons_self j _)
      have hkrest : k ∉ succIdx hash fs resp rest :=
        fun h => hk (List.mem_cons_of_mem j h)
      have hstep : completionStep hash segments fs resp (acc, info) j
          = (acc ++ [(j, segmentFilename j)],
             insertEntry info j ⟨segments.getD j "", m⟩) := by
        simp [completionStep, hres]
      rw [hstep, ih _ _ k hkrest,
        lookup_insertEntry_ne info j k ⟨segments.getD j "", m⟩ hkj]

theorem foldl_completionStep_isSome (hash : List Nat → Nat)
    (segments : List String) (fs : Nat → Option (List Nat))
    (resp : Nat → Option HttpResponse) (order : List Nat) :
    ∀ (acc : List (Nat × String)) (info : List (Nat × Entry)) (k : Nat),
    (info.lookup k).isSome →
    (((order.foldl (completionStep hash segments fs resp) (acc, info)).2).lookup k).isSome := by
  induction order with
  | nil => intro acc info k hk; exact hk
  | cons j rest ih =>
    intro acc info k hk
    rw [List.foldl_cons]
    cases hres : (download_segment hash (resp j) (fs j)).2 with
    | none =>
      have hstep : completionStep hash segments fs resp (acc, info) j
          = (acc, info) := by
        simp [completionStep, hres]
      rw [hstep]; exact ih acc info k hk
    | some m =>
      have hstep : completionStep hash segments fs resp (acc, info) j
          = (acc ++ [(j, segmentFilename j)],
             insertEntry info j ⟨segments.getD j "", m⟩) := by
        simp [completionStep, hres]
      rw [hstep]
      refine ih _ _ k ?_
      rw [isSome_lookup_insertEntry]
      exact Or.inl hk

theorem foldl_completionStep_isSome_inv (hash : List Nat → Nat)
    (segments : List String) (fs : Nat → Option (List Nat))
    (resp : Nat → Option HttpResponse) (order : List Nat) :
    ∀ (acc : List (Nat × String)) (info : List (Nat × Entry)) (k : Nat),
    (((order.foldl (completionStep hash segments fs resp) (acc, info)).2).lookup k).isSome →
    (info.lookup k).isSome ∨ k ∈ order := by
  induction order with
  | nil => intro acc info k hk; exact Or.inl hk
  | cons j rest ih =>
    intro acc info k hk
    rw [List.foldl_cons] at hk
    cases hres : (download_segment hash (resp j) (fs j)).2 with
    | none =>
      have hstep : completionStep hash segments fs resp (acc, info) j
          = (acc, info) := by
        simp [completionStep, hres]
      rw [hstep] at hk
      rcases ih acc info k hk with h | h
      · exact Or.inl h
      · exact Or.inr (List.mem_cons_of_mem j h)
    | some m =>
      have hstep : completionStep hash segments fs resp (acc, info) j
          = (acc ++ [(j, segmentFilename j)],
             insertEntry info j ⟨segments.getD j "", m⟩) := by
        simp [completionStep, hres]
      rw [hstep] at hk
      rcases ih _ _ k hk with h | h
      · rw [isSome_lookup_insertEntry] at h
        rcases h with h | h
        · exact Or.inl h
        · exact Or.inr (h ▸ List.mem_cons_self j rest)
      · exact Or.inr (List.mem_cons_of_mem j h)

/-- C3: the scheduler skips dispatching a fetch for index `i` (treating it
as already done) if and only if `i` is in range, a ledger entry exists for
`i`, the segment file exists on disk, and the recomputed digest of the file
equals the entry's stored digest; conversely `i` is dispatched for
(re-)download exactly when it is in range and any of those checks fails. -/
theorem C3_skip_iff_verified (hash : List Nat → Nat)
    (info : List (Nat × Entry)) (fs : Nat → Option (List Nat)) (n i : Nat) :
    (i ∈ skippedIdx hash info fs n ↔
      i < n ∧ ∃ e c, info.lookup i = some e ∧ fs i = some c ∧ e.md5 = hash c)
    ∧ (i ∈ submittedIdx hash info fs n ↔
      i < n ∧ ¬ ∃ e c, info.lookup i = some e ∧ fs i = some c
        ∧ e.md5 = hash c) := by
  have hiff : isSkipped hash info fs i = true ↔
      ∃ e c, info.lookup i = some e ∧ fs i = some c ∧ e.md5 = hash c := by
    unfold isSkipped
    cases hl : info.lookup i with
    | none => simp
    | some e =>
      cases hf : fs i with
      | none => simp
      | some c => simp
  constructor
  · rw [skippedIdx, List.mem_filter, List.mem_range, hiff]
  · rw [submittedIdx, List.mem_filter, List.mem_range]
    simp only [Bool.not_eq_true', ← Bool.not_eq_true, hiff]

/-- C6 counterexample: a run directory whose ledger document is present but
unparsable does not load as the empty ledger: the decode error escapes and
fails the run. -/
theorem C6_counterexample :
    loadSegmentInfo (fun _ => none) (some "not a json document")
      = Except.error "json.JSONDecodeError"
    ∧ (Except.error "json.JSONDecodeError" : Except String (List (Nat × Entry)))
      ≠ Except.ok [] := by
  exact ⟨rfl, by simp⟩

/-- C6 (amended): a missing ledger document is treated as no prior progress
(the empty ledger), but a present, corrupt document raises the JSON decode
error, which the scheduler does not catch, so it fails the run. -/
theorem C6_missing_empty_corrupt_fatal
    (parse : String → Option (List (Nat × Entry))) (doc : String)
    (hbad : parse doc = none) :
    loadSegmentInfo parse none = Except.ok []
    ∧ loadSegmentInfo parse (some doc)
        = Except.error "json.JSONDecodeError" := by
  exact ⟨rfl, by simp [loadSegmentInfo, hbad]⟩

theorem C6_missing_empty_corrupt_fatal_witness :
    loadSegmentInfo (fun _ => none) none
        = Except.ok ([] : List (Nat × Entry))
    ∧ loadSegmentInfo (fun _ => none) (some "x")
        = Except.error "json.JSONDecodeError" :=
  C6_missing_empty_corrupt_fatal (fun _ => none) "x" rfl

/-- C10: the scheduler never removes ledger entries.  Every key of the
loaded ledger is still a key of the ledger persisted at batch end; a key
outside the locator range is persisted with its loaded entry unchanged, and
so is a key whose download attempt fails this run. -/
theorem C10_ledger_never_shrinks (hash : List Nat → Nat)
    (segments : List String) (fs : Nat → Option (List Nat))
    (resp : Nat → Option HttpResponse) (info0 : List (Nat × Entry))
    (order : List Nat)
    (hord : order.Perm (submittedIdx hash info0 fs segments.length)) :
    (∀ k, (info0.lookup k).isSome →
      ((((download_segments_in_parallel hash segments fs resp info0
          order).2).lookup k).isSome))
    ∧ (∀ k, segments.length ≤ k →
      (((download_segments_in_parallel hash segments fs resp info0
          order).2).lookup k) = info0.lookup k)
    ∧ (∀ k, k ∈ order → (download_segment hash (resp k) (fs k)).2 = none →
      (((download_segments_in_parallel hash segments fs resp info0
          order).2).lookup k) = info0.lookup k) := by
  have hsnd : (download_segments_in_parallel hash segments fs resp info0
      order).2 = (order.foldl (completionStep hash segments fs resp)
        ([], info0)).2 := rfl
  refine ⟨?_, ?_, ?_⟩
  · intro k hk
    rw [hsnd]
    exact foldl_completionStep_isSome hash segments fs resp order [] info0 k hk
  · intro k hk
    rw [hsnd]
    refine foldl_completionStep_lookup hash segments fs resp order [] info0 k ?_
    intro hmem
    have hmem' : k ∈ order := List.mem_of_mem_filter hmem
    have hsub : k ∈ submittedIdx hash info0 fs segments.length :=
      hord.mem_iff.mp hmem'
    have : k < segments.length :=
      List.mem_range.mp (List.mem_of_mem_filter hsub)
    omega
  · intro k hkord hkfail
    rw [hsnd]
    refine foldl_completionStep_lookup hash segments fs resp order [] info0 k ?_
    intro hmem
    have := List.of_mem_filter hmem
    rw [hkfail] at this
    simp at this

theorem C10_ledger_never_shrinks_witness :
    ((((download_segments_in_parallel exampleHash ["u"] (fun _ => none)
        (fun _ => none) [(5, ⟨"x", 0⟩)]
        (submittedIdx exampleHash [(5, ⟨"x", 0⟩)] (fun _ => none)
          1)).2).lookup 5).isSome) :=
  (C10_ledger_never_shrinks exampleHash ["u"] (fun _ => none) (fun _ => none)
      [(5, ⟨"x", 0⟩)] _ (List.Perm.refl _)).1 5 (by decide)

/-- C7 counterexample: with a single-segment locator list and a loaded
ledger carrying key 5, the scheduler keeps key 5, so both after load and in
the persisted document the ledger's key set is not a subset of the index
range `[0, 1)`. -/
theorem C7_counterexample :
    (((download_segments_in_parallel exampleHash ["u"] (fun _ => none)
        (fun _ => none) [(5, ⟨"x", 0⟩)] [0]).2).lookup 5 = some ⟨"x", 0⟩)
    ∧ ¬ (5 < (["u"] : List String).length) := by
  exact ⟨by decide, by decide⟩

/-- C7 (amended): the keys the scheduler itself adds are within the index
range: every key of the persisted ledger is a key of the loaded ledger or
lies in `[0, segment_count)`.  (The loaded keys themselves are not pruned,
so the full subset claim fails; see the counterexample.) -/
theorem C7_persisted_keys_bound (hash : List Nat → Nat)
    (segments : List String) (fs : Nat → Option (List Nat))
    (resp : Nat → Option HttpResponse) (info0 : List (Nat × Entry))
    (order : List Nat)
    (hord : order.Perm (submittedIdx hash info0 fs segments.length))
    (k : Nat)
    (hk : ((((download_segments_in_parallel hash segments fs resp info0
        order).2).lookup k).isSome)) :
    (info0.lookup k).isSome ∨ k < segments.length := by
  have hsnd : (download_segments_in_parallel hash segments fs resp info0
      order).2 = (order.foldl (completionStep hash segments fs resp)
        ([], info0)).2 := rfl
  rw [hsnd] at hk
  rcases foldl_completionStep_isSome_inv hash segments fs resp order []
      info0 k hk with h | h
  · exact Or.inl h
  · have hsub : k ∈ submittedIdx hash info0 fs segments.length :=
      hord.mem_iff.mp h
    exact Or.inr (List.mem_range.mp (List.mem_of_mem_filter hsub))

theorem map_fst_tag (f : Nat → String) (l : List Nat) :
    (l.map fun i => (i, f i)).map Prod.fst = l := by
  induction l with
  | nil => rfl
  | cons a rest ih => simp only [List.map_cons, ih]

/-- C4: whatever order the downloads complete in (any permutation of the
submitted indices), the list returned by `download_segments_in_parallel` is
strictly sorted by segment index ascending: consecutive indices strictly
increase, so there are no duplicates and each index appears at most once. -/
theorem C4_merge_input_strictly_sorted (hash : List Nat → Nat)
    (segments : List String) (fs : Nat → Option (List Nat))
    (resp : Nat → Option HttpResponse) (info0 : List (Nat × Entry))
    (order : List Nat)
    (hord : order.Perm (submittedIdx hash info0 fs segments.length)) :
    ((download_segments_in_parallel hash segments fs resp info0
        order).1).Pairwise (fun a b => a.1 < b.1) := by
  have h1 : (download_segments_in_parallel hash segments fs resp info0
      order).1
      = (((skippedIdx hash info0 fs segments.length).map
            (fun i => (i, segmentFilename i)))
          ++ (order.foldl (completionStep hash segments fs resp)
              ([], info0)).1).mergeSort (fun a b => decide (a.1 ≤ b.1)) := rfl
  rw [h1, foldl_completionStep_fst hash segments fs resp order [] info0,
    List.nil_append]
  set A := (skippedIdx hash info0 fs segments.length).map
    (fun i => (i, segmentFilename i)) with hA
  set B := (succIdx hash fs resp order).map
    (fun j => (j, segmentFilename j)) with hB
  have hsorted : ((A ++ B).mergeSort
      (fun a b => decide (a.1 ≤ b.1))).Pairwise
      (fun a b => decide (a.1 ≤ b.1) = true) := by
    refine List.sorted_mergeSort ?_ ?_ (A ++ B)
    · intro a b c hab hbc
      simp only [decide_eq_true_eq] at *
      omega
    · intro a b
      simp only [Bool.or_eq_true, decide_eq_true_eq]
      omega
  have hAfst : A.map Prod.fst = skippedIdx hash info0 fs segments.length :=
    map_fst_tag _ _
  have hBfst : B.map Prod.fst = succIdx hash fs resp order :=
    map_fst_tag _ _
  have hnd : ((A ++ B).map Prod.fst).Nodup := by
    rw [List.map_append, hAfst, hBfst, List.nodup_append]
    refine ⟨(List.nodup_range _).filter _, ?_, ?_⟩
    · exact ((hord.nodup_iff.mpr ((List.nodup_range _).filter _)).filter _)
    · intro a ha hb
      have hskip : isSkipped hash info0 fs a = true :=
        (List.mem_filter.mp ha).2
      have hmemord : a ∈ order := (List.mem_filter.mp hb).1
      have hsub : a ∈ submittedIdx hash info0 fs segments.length :=
        hord.mem_iff.mp hmemord
      have hnot : (!(isSkipped hash info0 fs a)) = true :=
        (List.mem_filter.mp hsub).2
      rw [hskip] at hnot
      exact Bool.noConfusion hnot
  have hperm : List.Perm
      (((A ++ B).mergeSort (fun a b => decide (a.1 ≤ b.1))).map Prod.fst)
      ((A ++ B).map Prod.fst) :=
    (List.mergeSort_perm (A ++ B) _).map _
  have hnd2 := hperm.nodup_iff.mpr hnd
  have hne : ((A ++ B).mergeSort
      (fun a b => decide (a.1 ≤ b.1))).Pairwise
      (fun a b => a.1 ≠ b.1) := List.pairwise_map.mp hnd2
  refine (hsorted.and hne).imp ?_
  intro a b hab
  have hle := of_decide_eq_true hab.1
  have hne' := hab.2
  omega

theorem C4_merge_input_strictly_sorted_witness :
    ((download_segments_in_parallel exampleHash ["u0", "u1"]
        (fun _ => none) (fun _ => some ⟨true, some 1, [7]⟩) []
        (submittedIdx exampleHash [] (fun _ => none) 2)).1).Pairwise
      (fun a b => a.1 < b.1) :=
  C4_merge_input_strictly_sorted exampleHash ["u0", "u1"] (fun _ => none)
    (fun _ => some ⟨true, some 1, [7]⟩) [] _ (List.Perm.refl _)

theorem C7_persisted_keys_bound_witness :
    (([(5, (⟨"x", 0⟩ : Entry))] : List (Nat × Entry)).lookup 5).isSome
    ∨ 5 < (["u"] : List String).length :=
  C7_persisted_keys_bound exampleHash ["u"] (fun _ => none) (fun _ => none)
    [(5, ⟨"x", 0⟩)] _ (List.Perm.refl _) 5 (by decide)

end M3u8
